import Mathlib

/-!
# Verification of the Smart Timetable & Productivity backend

Shallow embedding of `src/main.py` (FastAPI backend): the task / time-block
document model, the `_to_doc` store-key renaming helper, the `auto_schedule`
greedy scheduler and the `recommend_next` scorer, together with theorems
settling the specification claims.

Timestamps are modelled as integers (UTC seconds); `timedelta(minutes=m)`
becomes `60 * m` and the 5-minute buffer becomes `300`.  Python dictionaries
returned by the document store are modelled as structures whose fields are
`Option`-valued exactly where the code uses `dict.get`.  Rational numbers
stand in for Python floats in the recommender (all quantities involved are
small dyadic/decimal values far from rounding boundaries).
-/

/-- A raw task document as returned by the store, and also the shape after
`_to_doc`.  `storeId` models the Mongo `_id` key (`none` = key absent);
every other field models the corresponding dictionary key. -/
structure TaskDoc where
  storeId : Option String
  id : Option String
  title : Option String
  description : Option String
  project : Option String
  estimate_minutes : Option Nat
  energy : Option String
  priority : Option String
  deadline : Option Int
  status : Option String
  tags : Option (List String)
deriving DecidableEq

/-- `_to_doc` from `src/main.py`: if the document has an `_id` key, pop it and
attach its string form as the `id` field (ObjectId values are modelled as
strings, so `str` is the identity). -/
def toDoc (d : TaskDoc) : TaskDoc :=
  match d.storeId with
  | some sid => { d with id := some sid, storeId := none }
  | none => d

/-- `t.get("estimate_minutes", 30)`. -/
def estOf (t : TaskDoc) : Nat := t.estimate_minutes.getD 30

/-- `prio_rank.get(t.get("priority", "medium"), 2)` with
`prio_rank = {"urgent": 0, "high": 1, "medium": 2, "low": 3}`. -/
def prioRankOf (t : TaskDoc) : Nat :=
  let p := t.priority.getD "medium"
  if p = "urgent" then 0
  else if p = "high" then 1
  else if p = "medium" then 2
  else if p = "low" then 3
  else 2

/-- Timestamp of `datetime.max` (9999-12-31 23:59:59, UTC seconds). -/
def datetimeMaxTs : Int := 253402300799

/-- `t.get("deadline") or datetime.max.replace(tzinfo=timezone.utc)`:
a `datetime` value is always truthy, so this is exactly `getD`. -/
def deadlineKeyOf (t : TaskDoc) : Int := t.deadline.getD datetimeMaxTs

/-- The composite ascending sort key of `auto_schedule`, as a relation:
`(prioRankOf, deadlineKeyOf, estOf)` compared lexicographically. -/
def schedLE (a b : TaskDoc) : Prop :=
  prioRankOf a < prioRankOf b ∨
    (prioRankOf a = prioRankOf b ∧
      (deadlineKeyOf a < deadlineKeyOf b ∨
        (deadlineKeyOf a = deadlineKeyOf b ∧ estOf a ≤ estOf b)))

instance : DecidableRel schedLE := fun a b => by
  unfold schedLE; infer_instance

instance : IsTotal TaskDoc schedLE where
  total a b := by
    unfold schedLE
    rcases Nat.lt_trichotomy (prioRankOf a) (prioRankOf b) with h | h | h
    · exact Or.inl (Or.inl h)
    · rcases Int.lt_trichotomy (deadlineKeyOf a) (deadlineKeyOf b) with h2 | h2 | h2
      · exact Or.inl (Or.inr ⟨h, Or.inl h2⟩)
      · rcases Nat.le_total (estOf a) (estOf b) with h3 | h3
        · exact Or.inl (Or.inr ⟨h, Or.inr ⟨h2, h3⟩⟩)
        · exact Or.inr (Or.inr ⟨h.symm, Or.inr ⟨h2.symm, h3⟩⟩)
      · exact Or.inr (Or.inr ⟨h.symm, Or.inl h2⟩)
    · exact Or.inr (Or.inl h)

instance : IsTrans TaskDoc schedLE where
  trans a b c hab hbc := by
    unfold schedLE at *
    rcases hab with h1 | ⟨e1, h1⟩ <;> rcases hbc with h2 | ⟨e2, h2⟩
    · exact Or.inl (Nat.lt_trans h1 h2)
    · exact Or.inl (e2 ▸ h1)
    · exact Or.inl (e1 ▸ h2)
    · refine Or.inr ⟨e1.trans e2, ?_⟩
      rcases h1 with h1 | ⟨d1, h1⟩ <;> rcases h2 with h2 | ⟨d2, h2⟩
      · exact Or.inl (Int.lt_trans h1 h2)
      · exact Or.inl (d2 ▸ h1)
      · exact Or.inl (d1 ▸ h2)
      · exact Or.inr ⟨d1.trans d2, Nat.le_trans h1 h2⟩

/-- `t.get("project") or ",".join(t.get("tags", [])) or None` — Python `or`
treats `None` and the empty string as falsy. -/
def contextOf (t : TaskDoc) : Option String :=
  let proj := t.project.getD ""
  let tagStr := String.intercalate "," (t.tags.getD [])
  if proj ≠ "" then some proj
  else if tagStr ≠ "" then some tagStr
  else none

/-- `t.get("id") or str(t.get("_id")) if t.get("_id") else None`.
Python parses this as `(t.get("id") or str(t.get("_id"))) if t.get("_id")
else None` (the conditional expression binds loosest).  Truthiness of the
string-modelled values is non-emptiness. -/
def taskIdOf (t : TaskDoc) : Option String :=
  match t.storeId with
  | none => none
  | some sid =>
    if sid = "" then none
    else
      match t.id with
      | some s => if s = "" then some sid else some s
      | none => some sid

/-- A `timeblock` record as written by the scheduler (`tb` in the code).
`stop` embeds the Python field `end` (a Lean keyword). -/
structure TimeBlockRec where
  task_id : Option String
  title : Option String
  start : Int
  stop : Int
  status : String
  context : Option String
deriving DecidableEq

/-- The block the loop body of `auto_schedule` builds at cursor `c`
for task `t` (`block_start = cursor`, `block_end = cursor + est minutes`). -/
def mkBlockAt (c : Int) (t : TaskDoc) : TimeBlockRec :=
  { task_id := taskIdOf t
    title := t.title
    start := c
    stop := c + 60 * (estOf t : Int)
    status := "planned"
    context := contextOf t }

/-- The scheduling walk of `auto_schedule`: for each task compute
`block_end = cursor + estimate`; if `block_end > end` stop immediately,
otherwise emit the block and advance `cursor = block_end + 5 minutes`. -/
def scheduleLoop (wend : Int) : Int → List TaskDoc → List TimeBlockRec
  | _, [] => []
  | c, t :: ts =>
    if wend < c + 60 * (estOf t : Int) then []
    else mkBlockAt c t :: scheduleLoop wend (c + 60 * (estOf t : Int) + 300) ts

/-- Modelled from the spec: the store query
`get_documents("task", {"status": {"$ne": "done"}})` (the `database` module
is an external collaborator); per §6 the filter is a not-equal test on
`status`, followed by the `_to_doc` renaming applied in `auto_schedule` /
`recommend_next`. -/
def notDoneTasks (store : List TaskDoc) : List TaskDoc :=
  (store.filter fun t => decide (t.status ≠ some "done")).map toDoc

/-- `tasks.sort(key=...)`: Python's stable sort by the composite key,
modelled by stable insertion sort with the key order `schedLE`. -/
def sortTasks (l : List TaskDoc) : List TaskDoc := l.insertionSort schedLE

/-- `start = req.start or now` (a datetime is always truthy). -/
def windowStartOf (now : Int) (reqStart : Option Int) : Int := reqStart.getD now

/-- `end = req.end or (start + timedelta(hours=8))`. -/
def windowEndOf (now : Int) (reqStart reqEnd : Option Int) : Int :=
  reqEnd.getD (windowStartOf now reqStart + 28800)

/-- `auto_schedule` (store available): fetch not-done tasks, sort by the
composite key, and run the greedy packing walk over the window. -/
def auto_schedule (now : Int) (reqStart reqEnd : Option Int)
    (store : List TaskDoc) : List TimeBlockRec :=
  scheduleLoop (windowEndOf now reqStart reqEnd) (windowStartOf now reqStart)
    (sortTasks (notDoneTasks store))

/-!
## Recommender (`recommend_next`)
-/

/-- A scored suggestion entry: the task summary dictionary plus the score. -/
structure Suggestion where
  id : Option String
  title : Option String
  estimate_minutes : Nat
  priority : String
  deadline : Option Int
  score : ℚ
deriving DecidableEq

/-- `prio_weight.get(t.get("priority", "medium"), 2)` with
`prio_weight = {"urgent": 4, "high": 3, "medium": 2, "low": 1}`. -/
def prioWeightOf (t : TaskDoc) : ℚ :=
  let p := t.priority.getD "medium"
  if p = "urgent" then 4
  else if p = "high" then 3
  else if p = "medium" then 2
  else if p = "low" then 1
  else 2

/-- The urgency bonus: `time_to_deadline = (deadline - now)/3600` hours when a
deadline is present; bonus 3 below 4 hours, 2 below 24, 1 below 72, else 0;
0 when no deadline. -/
def urgencyBonus (now : Int) (deadline : Option Int) : ℚ :=
  match deadline with
  | none => 0
  | some d =>
    let h : ℚ := ((d : ℚ) - (now : ℚ)) / 3600
    if h < 4 then 3 else if h < 24 then 2 else if h < 72 then 1 else 0

/-- `max(0, (est - 30) / 30) * 0.2`. -/
def durationPenalty (est : Nat) : ℚ :=
  max 0 (((est : ℚ) - 30) / 30) * (1 / 5)

/-- `round(q, 2)`: round to two decimal places. -/
def round2 (q : ℚ) : ℚ := ((round (q * 100) : ℤ) : ℚ) / 100

/-- `round(float(base + urgency_bonus - duration_penalty), 2)`. -/
def scoreOf (now : Int) (t : TaskDoc) : ℚ :=
  round2 (prioWeightOf t + urgencyBonus now t.deadline - durationPenalty (estOf t))

/-- The suggestion dictionary appended for task `t`. -/
def mkSuggestion (now : Int) (t : TaskDoc) : Suggestion :=
  { id := t.id
    title := t.title
    estimate_minutes := estOf t
    priority := t.priority.getD "medium"
    deadline := t.deadline
    score := scoreOf now t }

/-- `suggestions.sort(key=lambda s: s["score"], reverse=True)`: the stable
descending order on scores (`a` may precede `b` iff `b.score ≤ a.score`). -/
def suggGE (a b : Suggestion) : Prop := b.score ≤ a.score

instance : DecidableRel suggGE := fun a b => by
  unfold suggGE; infer_instance

instance : IsTotal Suggestion suggGE where
  total a b := le_total b.score a.score

instance : IsTrans Suggestion suggGE where
  trans _ _ _ hab hbc := le_trans hbc hab

/-- The store-order list of scored suggestions built by `recommend_next`. -/
def allSuggestions (now : Int) (store : List TaskDoc) : List Suggestion :=
  (notDoneTasks store).map (mkSuggestion now)

/-- `recommend_next` with the store available: score every not-done task,
stable-sort by score descending, return the top 3. -/
def recommendCore (now : Int) (store : List TaskDoc) : List Suggestion :=
  ((allSuggestions now store).insertionSort suggGE).take 3

/-!
## Endpoint-level model, including store availability

Modelled from the spec: the `database` module (the record store adapter) is
an external collaborator; its handle `db` is modelled as an `Option`al store
state (`none` = unavailable), matching the code's `if db is None` /
`if db` checks, and `create_document` is modelled by the store-assigned
identifier being passed in (`newId`).
-/

/-- A raw `timeblock` document as returned by the store. -/
structure TimeBlockDoc where
  storeId : Option String
  id : Option String
  task_id : Option String
  title : Option String
  start : Option Int
  stop : Option Int
  status : Option String
  context : Option String
deriving DecidableEq

/-- `_to_doc` on a timeblock document. -/
def toDocTB (d : TimeBlockDoc) : TimeBlockDoc :=
  match d.storeId with
  | some sid => { d with id := some sid, storeId := none }
  | none => d

/-- The contents of the two collections of the document store. -/
structure StoreData where
  tasks : List TaskDoc
  timeblocks : List TimeBlockDoc
deriving DecidableEq

/-- Request body of `POST /tasks` (`TaskIn`). -/
structure TaskIn where
  title : String
  description : Option String
  project : Option String
  estimate_minutes : Nat
  energy : Option String
  priority : String
  deadline : Option Int
  tags : List String
deriving DecidableEq

/-- Response shape of `GET /tasks` / `POST /tasks` (`Task`). -/
structure TaskOut where
  id : Option String
  title : Option String
  description : Option String
  project : Option String
  estimate_minutes : Nat
  energy : Option String
  priority : String
  deadline : Option Int
  tags : List String
  status : String
deriving DecidableEq

/-- Response shape of `GET /timeblocks` (`TimeBlock`). -/
structure TimeBlockOut where
  id : Option String
  task_id : Option String
  title : Option String
  start : Option Int
  stop : Option Int
  status : String
  context : Option String
deriving DecidableEq

/-- An HTTP error: status code and detail, as raised by `HTTPException`. -/
def storeUnavailable : Nat × String := (500, "Database not available")

/-- `GET /tasks`: `get_documents("task", {}) if db else []`, each document
passed through `_to_doc` and re-packed with the defaults of the code. -/
def list_tasksM (db : Option StoreData) : List TaskOut :=
  match db with
  | none => []
  | some s =>
    (s.tasks.map toDoc).map fun d =>
      { id := d.id
        title := d.title
        description := d.description
        project := d.project
        estimate_minutes := d.estimate_minutes.getD 30
        energy := d.energy
        priority := d.priority.getD "medium"
        deadline := d.deadline
        tags := d.tags.getD []
        status := d.status.getD "todo" }

/-- `GET /timeblocks`. -/
def list_timeblocksM (db : Option StoreData) : List TimeBlockOut :=
  match db with
  | none => []
  | some s =>
    (s.timeblocks.map toDocTB).map fun d =>
      { id := d.id
        task_id := d.task_id
        title := d.title
        start := d.start
        stop := d.stop
        status := d.status.getD "planned"
        context := d.context }

/-- `POST /tasks`: raise 500 when the store is unavailable; otherwise insert
the record with `status = "todo"` and echo it back with the new id. -/
def create_taskM (db : Option StoreData) (newId : String) (input : TaskIn) :
    Except (Nat × String) TaskOut :=
  match db with
  | none => Except.error storeUnavailable
  | some _ =>
    Except.ok
      { id := some newId
        title := some input.title
        description := input.description
        project := input.project
        estimate_minutes := input.estimate_minutes
        energy := input.energy
        priority := input.priority
        deadline := input.deadline
        tags := input.tags
        status := "todo" }

/-- `POST /schedule/auto`: raise 500 when the store is unavailable; otherwise
run the scheduler.  The returned blocks are exactly the records written by
the loop's `create_document` calls, so an error result entails no writes. -/
def auto_scheduleM (db : Option StoreData) (now : Int)
    (reqStart reqEnd : Option Int) : Except (Nat × String) (List TimeBlockRec) :=
  match db with
  | none => Except.error storeUnavailable
  | some s => Except.ok (auto_schedule now reqStart reqEnd s.tasks)

/-- `GET /recommend`: the current timestamp together with the suggestion
list, which stays empty when the store is unavailable. -/
def recommend_nextM (db : Option StoreData) (now : Int) :
    Int × List Suggestion :=
  (now,
    match db with
    | none => []
    | some s => recommendCore now s.tasks)

/-!
## Concrete documents used in the spec's worked examples
-/

/-- The urgent / no-deadline / 60-minute task of the sort-correctness example. -/
def tUrgent : TaskDoc :=
  { storeId := some "idU", id := none, title := some "urgent task",
    description := none, project := none, estimate_minutes := some 60,
    energy := none, priority := some "urgent", deadline := none,
    status := some "todo", tags := none }

/-- The high / deadline-in-2-hours / 30-minute task of the example. -/
def tHigh (now : Int) : TaskDoc :=
  { storeId := some "idH", id := none, title := some "high task",
    description := none, project := none, estimate_minutes := some 30,
    energy := none, priority := some "high", deadline := some (now + 7200),
    status := some "todo", tags := none }

/-- The medium / no-deadline / 30-minute task of the example. -/
def tMedium : TaskDoc :=
  { storeId := some "idM", id := none, title := some "medium task",
    description := none, project := none, estimate_minutes := some 30,
    energy := none, priority := some "medium", deadline := none,
    status := some "todo", tags := none }

/-- The recommender's worked example: urgent priority, deadline two hours
from now, 90-minute estimate. -/
def tScoreEx (now : Int) : TaskDoc :=
  { storeId := some "idS", id := none, title := some "scored task",
    description := none, project := none, estimate_minutes := some 90,
    energy := none, priority := some "urgent", deadline := some (now + 7200),
    status := some "todo", tags := none }

/-!
## Helper lemmas about the scheduling walk
-/

theorem scheduleLoop_mem_stop_le {wend : Int} :
    ∀ {ts : List TaskDoc} {c : Int} {b : TimeBlockRec},
      b ∈ scheduleLoop wend c ts → b.stop ≤ wend := by
  intro ts
  induction ts with
  | nil => intro c b h; simp [scheduleLoop] at h
  | cons t ts ih =>
    intro c b h
    simp only [scheduleLoop] at h
    split at h
    · simp at h
    · rename_i hfit
      rcases List.mem_cons.mp h with rfl | h
      · simpa [mkBlockAt] using Int.not_lt.mp hfit
      · exact ih h

theorem scheduleLoop_append_of_stop {wend : Int} :
    ∀ {ts : List TaskDoc} {c : Int} (extra : List TaskDoc),
      (scheduleLoop wend c ts).length < ts.length →
      scheduleLoop wend c (ts ++ extra) = scheduleLoop wend c ts := by
  intro ts
  induction ts with
  | nil => intro c extra h; simp [scheduleLoop] at h
  | cons t ts ih =>
    intro c extra h
    by_cases hc : wend < c + 60 * (estOf t : Int)
    · simp [scheduleLoop, hc]
    · simp only [scheduleLoop, if_neg hc, List.length_cons] at h ⊢
      exact congrArg (mkBlockAt c t :: ·) (ih extra (by omega))

theorem scheduleLoop_head_start {wend c : Int} {ts : List TaskDoc}
    {b : TimeBlockRec} {l : List TimeBlockRec}
    (h : scheduleLoop wend c ts = b :: l) : b.start = c := by
  cases ts with
  | nil => simp [scheduleLoop] at h
  | cons t ts =>
    simp only [scheduleLoop] at h
    split at h
    · simp at h
    · injection h with h1 _
      rw [← h1]
      rfl

theorem scheduleLoop_chain' {wend : Int} :
    ∀ {ts : List TaskDoc} {c : Int},
      List.Chain' (fun a b => a.stop + 300 = b.start) (scheduleLoop wend c ts) := by
  intro ts
  induction ts with
  | nil => intro c; simp [scheduleLoop]
  | cons t ts ih =>
    intro c
    by_cases hc : wend < c + 60 * (estOf t : Int)
    · simp [scheduleLoop, hc]
    · simp only [scheduleLoop, if_neg hc]
      rw [List.chain'_cons']
      refine ⟨?_, ih⟩
      intro y hy
      cases hl : scheduleLoop wend (c + 60 * (estOf t : Int) + 300) ts with
      | nil => rw [hl] at hy; simp at hy
      | cons b l =>
        rw [hl] at hy
        simp only [List.head?_cons, Option.mem_def, Option.some.injEq] at hy
        subst hy
        rw [scheduleLoop_head_start hl]
        simp [mkBlockAt]

theorem scheduleLoop_mem_start_ge {wend : Int} :
    ∀ {ts : List TaskDoc} {c : Int} {b : TimeBlockRec},
      b ∈ scheduleLoop wend c ts → c ≤ b.start := by
  intro ts
  induction ts with
  | nil => intro c b h; simp [scheduleLoop] at h
  | cons t ts ih =>
    intro c b h
    simp only [scheduleLoop] at h
    split at h
    · simp at h
    · rcases List.mem_cons.mp h with rfl | h
      · simp [mkBlockAt]
      · have := ih h
        omega

theorem scheduleLoop_pairwise {wend : Int} :
    ∀ {ts : List TaskDoc} {c : Int},
      List.Pairwise (fun a b => a.stop < b.start) (scheduleLoop wend c ts) := by
  intro ts
  induction ts with
  | nil => intro c; simp [scheduleLoop]
  | cons t ts ih =>
    intro c
    by_cases hc : wend < c + 60 * (estOf t : Int)
    · simp [scheduleLoop, hc]
    · simp only [scheduleLoop, if_neg hc]
      refine List.Pairwise.cons ?_ ih
      intro b hb
      have := scheduleLoop_mem_start_ge hb
      simp only [mkBlockAt]
      omega

theorem scheduleLoop_forall₂ {wend : Int} :
    ∀ {ts : List TaskDoc} {c : Int},
      List.Forall₂ (fun t b => b = mkBlockAt b.start t)
        (ts.take (scheduleLoop wend c ts).length) (scheduleLoop wend c ts) := by
  intro ts
  induction ts with
  | nil => intro c; simp [scheduleLoop]
  | cons t ts ih =>
    intro c
    by_cases hc : wend < c + 60 * (estOf t : Int)
    · simp [scheduleLoop, hc]
    · simp only [scheduleLoop, if_neg hc, List.length_cons, List.take_succ_cons]
      exact List.Forall₂.cons rfl ih

theorem scheduleLoop_mem_spec {wend : Int} :
    ∀ {ts : List TaskDoc} {c : Int} {b : TimeBlockRec},
      b ∈ scheduleLoop wend c ts → ∃ t ∈ ts, b = mkBlockAt b.start t := by
  intro ts
  induction ts with
  | nil => intro c b h; simp [scheduleLoop] at h
  | cons t ts ih =>
    intro c b h
    simp only [scheduleLoop] at h
    split at h
    · simp at h
    · rcases List.mem_cons.mp h with rfl | h
      · exact ⟨t, List.mem_cons_self t ts, rfl⟩
      · obtain ⟨u, hu, hb⟩ := ih h
        exact ⟨u, List.mem_cons_of_mem t hu, hb⟩

/-- Every task appearing in the sorted not-done list has been through
`_to_doc`. -/
theorem mem_sortTasks_notDone {store : List TaskDoc} {t : TaskDoc}
    (h : t ∈ sortTasks (notDoneTasks store)) : ∃ d, t = toDoc d := by
  have h2 : t ∈ notDoneTasks store := by
    have := (List.perm_insertionSort schedLE (notDoneTasks store)).mem_iff.mp h
    exact this
  obtain ⟨d, _, hd⟩ := List.mem_map.mp h2
  exact ⟨d, hd.symm⟩

/-!
## Stability of the insertion sort (filter characterisation)
-/

theorem filter_orderedInsert_of_pos {α : Type} (r : α → α → Prop)
    [DecidableRel r] (p : α → Bool) (a : α) (hpa : p a = true)
    (hr : ∀ b, p b = true → r a b) :
    ∀ l : List α, (l.orderedInsert r a).filter p = a :: l.filter p := by
  intro l
  induction l with
  | nil => simp [List.orderedInsert, hpa]
  | cons b l ih =>
    by_cases hab : r a b
    · simp [List.orderedInsert, if_pos hab, List.filter_cons, hpa]
    · have hpb : p b = false := by
        cases hb : p b
        · rfl
        · exact absurd (hr b hb) hab
      simp [List.orderedInsert, if_neg hab, List.filter_cons, hpb, ih]

theorem filter_orderedInsert_of_neg {α : Type} (r : α → α → Prop)
    [DecidableRel r] (p : α → Bool) (a : α) (hpa : p a = false) :
    ∀ l : List α, (l.orderedInsert r a).filter p = l.filter p := by
  intro l
  induction l with
  | nil => simp [List.orderedInsert, hpa]
  | cons b l ih =>
    by_cases hab : r a b
    · simp [List.orderedInsert, if_pos hab, List.filter_cons, hpa]
    · simp [List.orderedInsert, if_neg hab, List.filter_cons, ih]

/-- A stable sort does not reorder the elements selected by a predicate `p`
as long as the elements satisfying `p` are mutually related by the sort
order (in our use, equal-score suggestions). -/
theorem filter_insertionSort {α : Type} (r : α → α → Prop)
    [DecidableRel r] (p : α → Bool)
    (hp : ∀ a b, p a = true → p b = true → r a b) :
    ∀ l : List α, (l.insertionSort r).filter p = l.filter p := by
  intro l
  induction l with
  | nil => rfl
  | cons a l ih =>
    simp only [List.insertionSort]
    cases hpa : p a
    · rw [filter_orderedInsert_of_neg r p a hpa, ih]
      simp [List.filter_cons, hpa]
    · rw [filter_orderedInsert_of_pos r p a hpa (fun b hb => hp a b hpa hb), ih]
      simp [List.filter_cons, hpa]

/-- A 5-minute task: short enough to fit where e.g. `tUrgent` does not. -/
def tShort : TaskDoc :=
  { storeId := some "idT", id := none, title := some "short task",
    description := none, project := none, estimate_minutes := some 5,
    energy := none, priority := some "low", deadline := none,
    status := some "todo", tags := none }

theorem scheduleLoop_cons_of_fit {wend c : Int} {t : TaskDoc} {ts : List TaskDoc}
    (h : c + 60 * (estOf t : Int) ≤ wend) :
    scheduleLoop wend c (t :: ts) =
      mkBlockAt c t :: scheduleLoop wend (c + 60 * (estOf t : Int) + 300) ts := by
  simp only [scheduleLoop]
  rw [if_neg (Int.not_lt.mpr h)]

theorem scheduleLoop_mem_start_le_stop {wend c : Int} {ts : List TaskDoc}
    {b : TimeBlockRec} (h : b ∈ scheduleLoop wend c ts) : b.start ≤ b.stop := by
  obtain ⟨t, _, hb⟩ := scheduleLoop_mem_spec h
  have h2 := congrArg TimeBlockRec.stop hb
  simp only [mkBlockAt] at h2
  omega

/-!
## The claims
-/

/-- C1: `auto_schedule` processes the fetched not-done tasks in composite-key
order (priority rank, then deadline with absent last, then estimate), so for
any input order of the tasks {urgent/no-deadline/60min,
high/deadline=+2h/30min, medium/no-deadline/30min} the produced blocks come
out in the order [urgent, high, medium].  Helper applied at each of the six
permutations. -/
theorem auto_schedule_example_order (now : Int) (l : List TaskDoc)
    (hs : sortTasks (notDoneTasks l) =
      [toDoc tUrgent, toDoc (tHigh now), toDoc tMedium]) :
    (auto_schedule now none none l).map (fun b => b.title) =
      [some "urgent task", some "high task", some "medium task"] := by
  unfold auto_schedule
  rw [hs]
  have e1 : ((estOf (toDoc tUrgent) : Nat) : Int) = 60 := rfl
  have e2 : ((estOf (toDoc (tHigh now)) : Nat) : Int) = 30 := rfl
  have e3 : ((estOf (toDoc tMedium) : Nat) : Int) = 30 := rfl
  rw [scheduleLoop_cons_of_fit
        (by simp only [windowStartOf, windowEndOf, Option.getD_none, e1]; omega),
      scheduleLoop_cons_of_fit
        (by simp only [windowStartOf, windowEndOf, Option.getD_none, e1, e2]; omega),
      scheduleLoop_cons_of_fit
        (by simp only [windowStartOf, windowEndOf, Option.getD_none, e1, e2, e3]; omega)]
  rfl

/-- C1: the scheduler's output order on the spec's three-task example is
[urgent, high, medium] regardless of the input order of the tasks. -/
theorem c1_schedule_order (now : Int) (l : List TaskDoc)
    (h : l ∈ [[tUrgent, tHigh now, tMedium], [tUrgent, tMedium, tHigh now],
              [tHigh now, tUrgent, tMedium], [tHigh now, tMedium, tUrgent],
              [tMedium, tUrgent, tHigh now], [tMedium, tHigh now, tUrgent]]) :
    (auto_schedule now none none l).map (fun b => b.title) =
      [some "urgent task", some "high task", some "medium task"] := by
  simp only [List.mem_cons, List.not_mem_nil, or_false] at h
  rcases h with rfl | rfl | rfl | rfl | rfl | rfl <;>
    exact auto_schedule_example_order now _ rfl

/-- Witness for C1 at `now = 0` and one concrete input order. -/
theorem c1_schedule_order_witness :
    [tMedium, tHigh 0, tUrgent] ∈
      [[tUrgent, tHigh 0, tMedium], [tUrgent, tMedium, tHigh 0],
       [tHigh 0, tUrgent, tMedium], [tHigh 0, tMedium, tUrgent],
       [tMedium, tUrgent, tHigh 0], [tMedium, tHigh 0, tUrgent]]
    ∧ (auto_schedule 0 none none [tMedium, tHigh 0, tUrgent]).map (fun b => b.title) =
        [some "urgent task", some "high task", some "medium task"] :=
  ⟨by decide, c1_schedule_order 0 [tMedium, tHigh 0, tUrgent] (by decide)⟩

/-- C2: every block returned by `auto_schedule` ends no later than
`window_end`, and the walk stops at the first task whose block would
overrun: appending further tasks (even shorter ones) after a stop changes
nothing. -/
theorem c2_within_window_and_greedy_stop :
    (∀ (now : Int) (reqStart reqEnd : Option Int) (store : List TaskDoc)
        (b : TimeBlockRec), b ∈ auto_schedule now reqStart reqEnd store →
          b.stop ≤ windowEndOf now reqStart reqEnd)
    ∧ ∀ (wend c : Int) (ts extra : List TaskDoc),
        (scheduleLoop wend c ts).length < ts.length →
        scheduleLoop wend c (ts ++ extra) = scheduleLoop wend c ts := by
  constructor
  · intro now rs re store b hb
    exact scheduleLoop_mem_stop_le hb
  · intro wend c ts extra h
    exact scheduleLoop_append_of_stop extra h

/-- Witness for C2: with a 1000-second window the 60-minute task overruns and
the walk stops; the 5-minute task after it would fit but is not scheduled. -/
theorem c2_within_window_and_greedy_stop_witness :
    (scheduleLoop 1000 0 [tUrgent]).length < ([tUrgent] : List TaskDoc).length
    ∧ scheduleLoop 1000 0 ([tUrgent] ++ [tShort]) = scheduleLoop 1000 0 [tUrgent] :=
  ⟨by decide, c2_within_window_and_greedy_stop.2 1000 0 [tUrgent] [tShort] (by decide)⟩

/-- C3: consecutive blocks are separated by exactly the 5-minute buffer
(`stop + 300 = next.start`), hence blocks are pairwise non-overlapping and
strictly ordered by start, and each block's duration is its task's
`estimate_minutes` (in seconds, `60 *` minutes). -/
theorem c3_spacing_nonoverlap_duration :
    ∀ (now : Int) (reqStart reqEnd : Option Int) (store : List TaskDoc),
      List.Chain' (fun a b => a.stop + 300 = b.start)
          (auto_schedule now reqStart reqEnd store)
      ∧ List.Pairwise (fun a b => a.stop < b.start)
          (auto_schedule now reqStart reqEnd store)
      ∧ List.Pairwise (fun a b => a.start < b.start)
          (auto_schedule now reqStart reqEnd store)
      ∧ List.Forall₂ (fun t b => b.stop = b.start + 60 * (estOf t : Int))
          ((sortTasks (notDoneTasks store)).take
            (auto_schedule now reqStart reqEnd store).length)
          (auto_schedule now reqStart reqEnd store) := by
  intro now rs re store
  refine ⟨scheduleLoop_chain', scheduleLoop_pairwise, ?_, ?_⟩
  · refine List.Pairwise.imp_of_mem ?_ (scheduleLoop_pairwise)
    intro a b ha hb hab
    have := scheduleLoop_mem_start_le_stop ha
    omega
  · refine List.Forall₂.imp ?_ scheduleLoop_forall₂
    intro t b hb
    exact congrArg TimeBlockRec.stop hb

/-- C4: `_to_doc` strips the store key `_id` before the loop runs, so the
conditional expression computing `task_id` always takes its `None` branch:
every block created by `auto_schedule` has `task_id` absent. -/
theorem c4_task_id_always_none :
    (∀ d : TaskDoc, taskIdOf (toDoc d) = none)
    ∧ ∀ (now : Int) (reqStart reqEnd : Option Int) (store : List TaskDoc)
        (b : TimeBlockRec), b ∈ auto_schedule now reqStart reqEnd store →
          b.task_id = none := by
  have base : ∀ d : TaskDoc, taskIdOf (toDoc d) = none := by
    intro d
    rcases h : d.storeId with _ | sid
    · simp [toDoc, taskIdOf, h]
    · simp [toDoc, taskIdOf, h]
  refine ⟨base, ?_⟩
  intro now rs re store b hb
  obtain ⟨t, ht, hbt⟩ := scheduleLoop_mem_spec hb
  obtain ⟨d, rfl⟩ := mem_sortTasks_notDone ht
  have h2 := congrArg TimeBlockRec.task_id hbt
  simp only [mkBlockAt] at h2
  rw [h2, base]

/-- Witness for C4 on a concrete store with one task. -/
theorem c4_task_id_always_none_witness :
    mkBlockAt 0 (toDoc tUrgent) ∈ auto_schedule 0 none none [tUrgent]
    ∧ (mkBlockAt 0 (toDoc tUrgent)).task_id = none :=
  ⟨by decide, c4_task_id_always_none.2 0 none none [tUrgent] _ (by decide)⟩

/-- C9: a window whose end precedes its start (defaults applied) yields an
empty block sequence, so nothing is persisted. -/
theorem c9_inverted_window_empty :
    ∀ (now : Int) (reqStart reqEnd : Option Int) (store : List TaskDoc),
      windowEndOf now reqStart reqEnd < windowStartOf now reqStart →
      auto_schedule now reqStart reqEnd store = [] := by
  intro now rs re store h
  unfold auto_schedule
  cases hts : sortTasks (notDoneTasks store) with
  | nil => rfl
  | cons t ts =>
    have hcond : windowEndOf now rs re <
        windowStartOf now rs + 60 * (estOf t : Int) := by omega
    simp [scheduleLoop, hcond]

/-- Witness for C9 with an explicit inverted window. -/
theorem c9_inverted_window_empty_witness :
    windowEndOf 0 (some 100) (some 50) < windowStartOf 0 (some 100)
    ∧ auto_schedule 0 (some 100) (some 50) [tUrgent] = [] :=
  ⟨by decide, c9_inverted_window_empty 0 (some 100) (some 50) [tUrgent] (by decide)⟩

/-- C10: every created block has `status = "planned"`, its title copied from
its source task, and `context` derived as the task's project when truthy,
else the comma-joined tags when non-empty, else absent (`contextOf`). -/
theorem c10_block_fields :
    ∀ (now : Int) (reqStart reqEnd : Option Int) (store : List TaskDoc),
      (∀ b ∈ auto_schedule now reqStart reqEnd store, b.status = "planned")
      ∧ List.Forall₂
          (fun t b => b.title = t.title ∧ b.context = contextOf t
            ∧ b.status = "planned")
          ((sortTasks (notDoneTasks store)).take
            (auto_schedule now reqStart reqEnd store).length)
          (auto_schedule now reqStart reqEnd store) := by
  intro now rs re store
  constructor
  · intro b hb
    obtain ⟨t, _, hbt⟩ := scheduleLoop_mem_spec hb
    exact congrArg TimeBlockRec.status hbt
  · refine List.Forall₂.imp ?_ scheduleLoop_forall₂
    intro t b hb
    exact ⟨congrArg TimeBlockRec.title hb, congrArg TimeBlockRec.context hb,
      congrArg TimeBlockRec.status hb⟩

/-- Witness for C10 on a concrete store with one task. -/
theorem c10_block_fields_witness :
    mkBlockAt 0 (toDoc tMedium) ∈ auto_schedule 0 none none [tMedium]
    ∧ (mkBlockAt 0 (toDoc tMedium)).status = "planned" :=
  ⟨by decide, (c10_block_fields 0 none none [tMedium]).1 _ (by decide)⟩

/-- C5: every reported score is `round2 (base + urgency_bonus -
duration_penalty)` for its source task, and the worked example (urgent,
deadline two hours out, 90-minute estimate) scores 6.6. -/
theorem c5_score_formula :
    (∀ (now : Int) (store : List TaskDoc) (s : Suggestion),
        s ∈ recommendCore now store →
        ∃ t ∈ notDoneTasks store,
          s.score = round2 (prioWeightOf t + urgencyBonus now t.deadline -
            durationPenalty (estOf t)))
    ∧ ∀ now : Int,
        (recommendCore now [tScoreEx now]).map (fun s => s.score) = [(6.6 : ℚ)] := by
  constructor
  · intro now store s hs
    have hs2 : s ∈ (allSuggestions now store).insertionSort suggGE :=
      List.mem_of_mem_take hs
    have hs3 : s ∈ allSuggestions now store :=
      (List.perm_insertionSort suggGE _).mem_iff.mp hs2
    obtain ⟨t, ht, hts⟩ := List.mem_map.mp hs3
    refine ⟨t, ht, ?_⟩
    rw [← hts]
    rfl
  · intro now
    have h1 : recommendCore now [tScoreEx now] =
        [mkSuggestion now (toDoc (tScoreEx now))] := rfl
    rw [h1]
    show [scoreOf now (toDoc (tScoreEx now))] = [(6.6 : ℚ)]
    have hb : (((now + 7200 : Int) : ℚ) - ((now : Int) : ℚ)) / 3600 < 4 := by
      push_cast
      norm_num
    unfold scoreOf round2 prioWeightOf urgencyBonus durationPenalty estOf toDoc tScoreEx
    norm_num [hb]

/-- Witness for C5 on a concrete store at `now = 0`. -/
theorem c5_score_formula_witness :
    mkSuggestion 0 (toDoc (tScoreEx 0)) ∈ recommendCore 0 [tScoreEx 0]
    ∧ ∃ t ∈ notDoneTasks [tScoreEx 0],
        (mkSuggestion 0 (toDoc (tScoreEx 0))).score =
          round2 (prioWeightOf t + urgencyBonus 0 t.deadline -
            durationPenalty (estOf t)) :=
  ⟨List.mem_singleton.mpr rfl,
    c5_score_formula.1 0 [tScoreEx 0] _ (List.mem_singleton.mpr rfl)⟩

/-- C6: a deadline already in the past still lands in the "< 4 hours" bucket
(the remaining time is negative), giving urgency bonus 3; no deadline gives
bonus 0. -/
theorem c6_past_deadline_bonus :
    (∀ now d : Int, d < now → urgencyBonus now (some d) = 3)
    ∧ ∀ now : Int, urgencyBonus now none = 0 := by
  constructor
  · intro now d h
    have hq : (((d : Int) : ℚ) - ((now : Int) : ℚ)) / 3600 < 4 := by
      have h1 : ((d : Int) : ℚ) < ((now : Int) : ℚ) := by exact_mod_cast h
      have h2 : ((d : Int) : ℚ) - ((now : Int) : ℚ) < 0 := by linarith
      have h3 : (((d : Int) : ℚ) - ((now : Int) : ℚ)) / 3600 < 0 :=
        div_neg_of_neg_of_pos h2 (by norm_num)
      linarith
    simp [urgencyBonus, hq]
  · intro now
    rfl

/-- Witness for C6 at `now = 1`, `deadline = 0`. -/
theorem c6_past_deadline_bonus_witness :
    (0 : Int) < 1 ∧ urgencyBonus 1 (some 0) = 3 :=
  ⟨by decide, c6_past_deadline_bonus.1 1 0 (by decide)⟩

/-- C7: `recommend_next` returns at most 3 suggestions, sorted by score
descending, and the sort is stable: for every score value, the returned
suggestions with that score form a sublist (order preserved) of the
store-order suggestion list. -/
theorem c7_top3_sorted_stable :
    ∀ (now : Int) (store : List TaskDoc),
      (recommendCore now store).length ≤ 3
      ∧ List.Sorted suggGE (recommendCore now store)
      ∧ ∀ q : ℚ,
          List.Sublist
            ((recommendCore now store).filter fun s => decide (s.score = q))
            ((allSuggestions now store).filter fun s => decide (s.score = q)) := by
  intro now store
  refine ⟨?_, ?_, ?_⟩
  · unfold recommendCore
    rw [List.length_take]
    exact min_le_left _ _
  · exact List.Pairwise.sublist (List.take_sublist 3 _)
      (List.sorted_insertionSort suggGE _)
  · intro q
    have hstable := filter_insertionSort suggGE (fun s => decide (s.score = q))
      (fun a b ha hb => by
        have ha2 : a.score = q := of_decide_eq_true ha
        have hb2 : b.score = q := of_decide_eq_true hb
        unfold suggGE
        rw [ha2, hb2]) (allSuggestions now store)
    rw [← hstable]
    exact List.Sublist.filter _ (List.take_sublist 3 _)

/-- C8: with the store unavailable, `create_task` and `auto_schedule` fail
with the 500 "Database not available" error (and write nothing), while
`list_tasks`, `list_timeblocks` and `recommend_next` return empty results
(for `recommend_next`, the timestamp with an empty suggestion list). -/
theorem c8_store_unavailable_behavior :
    (∀ (newId : String) (input : TaskIn),
        create_taskM none newId input =
          Except.error (500, "Database not available"))
    ∧ (∀ (now : Int) (reqStart reqEnd : Option Int),
        auto_scheduleM none now reqStart reqEnd =
          Except.error (500, "Database not available"))
    ∧ list_tasksM none = []
    ∧ list_timeblocksM none = []
    ∧ ∀ now : Int, recommend_nextM none now = (now, []) :=
  ⟨fun _ _ => rfl, fun _ _ _ => rfl, rfl, rfl, fun _ => rfl⟩
